import Mathlib

/-!
Verification of the SynCode collaborative-editor core: a shallow embedding of
the Socket.io server (`index.ts`) and of the React client's socket handlers
(`App.tsx`), with the properties of the specification proved against it.

Server state is embedded with association lists mirroring the JavaScript
`Map`s (`rooms`, `socketRoomMap`) and the Socket.io adapter's room grouping.
Connection identifiers and room keys are kept as distinct types, matching the
protocol's addressing model (server-generated socket ids vs client-supplied
room keys).  Each `socket.on(...)` handler of the source becomes one arm of
`serverStep`, which returns the new server state together with the list of
(recipient, message) deliveries the handler emits.
-/

namespace SynCode

/-- Connection (socket) identifier, server-generated. -/
abbrev Conn := Nat

/-- Room key, an opaque client-supplied string. -/
abbrev RoomKey := String

/-- Opaque Monaco edit delta (`event.changes`); forwarded verbatim, never
interpreted by the server. -/
abbrev Delta := String

/-- Opaque WebRTC handshake payload; forwarded verbatim. -/
abbrev Sig := String

/-- First-match lookup in an association list (JavaScript `Map.get`). -/
def lookupA {α β : Type} [DecidableEq α] : List (α × β) → α → Option β
  | [], _ => none
  | (k, v) :: t, a => if k = a then some v else lookupA t a

/-- `Map.set`: overwrite the first binding of the key in place, or append a
fresh binding at the end. -/
def setA {α β : Type} [DecidableEq α] : List (α × β) → α → β → List (α × β)
  | [], a, b => [(a, b)]
  | (k, v) :: t, a, b => if k = a then (a, b) :: t else (k, v) :: setA t a b

/-- `Map.delete`: drop every binding of the key. -/
def eraseKey {α β : Type} [DecidableEq α] (l : List (α × β)) (a : α) : List (α × β) :=
  l.filter (fun p => p.1 ≠ a)

/-- Per-room document state held by the server (`interface RoomData`). -/
structure RoomData where
  code : String
  language : String
  output : List String
deriving DecidableEq

/-- The state a room is created with on first join (`rooms.set(roomId, ...)`
in the `join_room` handler). -/
def defaultRoom : RoomData :=
  { code := "// Welcome to SyncCode\n// Select a language and start typing..."
    language := "javascript"
    output := ["Ready to execute..."] }

/-- The Socket.io adapter's room grouping: room key to the list of member
sockets, in join order (`io.sockets.adapter.rooms`). -/
abbrev Adapter := List (RoomKey × List Conn)

/-- Members of a room group; a missing group reads as empty
(`io.sockets.adapter.rooms.get(roomId) || []`). -/
def adapterGet (a : Adapter) (r : RoomKey) : List Conn :=
  (lookupA a r).getD []

/-- `socket.join(roomId)`: add the socket to the room's group; the adapter
stores members as a `Set`, so a socket already present is not added twice. -/
def adapterJoin (a : Adapter) (r : RoomKey) (c : Conn) : Adapter :=
  let g := adapterGet a r
  if c ∈ g then a else setA a r (g ++ [c])

/-- On transport-level disconnect the adapter removes the socket from every
room group (a `Set.delete` per group). -/
def adapterRemoveAll (a : Adapter) (c : Conn) : Adapter :=
  a.map (fun p => (p.1, p.2.filter (fun x => x ≠ c)))

/-- Messages the server emits to clients, one constructor per
`emit(event, payload)` in the source. -/
inductive SMsg where
  | syncState (st : RoomData)
  | receiveCode (code : String) (delta : Option Delta)
  | receiveLanguage (lang : String)
  | receiveOutput (out : List String)
  | userCount (n : Nat)
  | allUsers (users : List Conn)
  | userJoined (signal : Sig) (callerID : Conn)
  | receivingReturnedSignal (signal : Sig) (id : Conn)
  | userLeft (id : Conn)
deriving DecidableEq

/-- Inbound events at the server: the client-emitted socket events, the
transport-level connect/disconnect, and the firing of the oldest deferred
`setTimeout` callback scheduled by a disconnect.  `leaveRoom` is emitted by
the client's Leave button; the server registers no handler for it. -/
inductive Event where
  | connect (c : Conn)
  | joinRoom (c : Conn) (r : RoomKey)
  | requestUsers (c : Conn) (r : RoomKey)
  | sendingSignal (c : Conn) (userToSignal : Conn) (callerID : Conn) (signal : Sig)
  | returningSignal (c : Conn) (callerID : Conn) (signal : Sig)
  | codeChange (c : Conn) (r : RoomKey) (code : String) (delta : Option Delta)
  | languageChange (c : Conn) (r : RoomKey) (language : String)
  | outputChange (c : Conn) (r : RoomKey) (output : List String)
  | leaveRoom (c : Conn)
  | disconnect (c : Conn)
  | timerFire
deriving DecidableEq

/-- Whole server state: the two `Map`s of `index.ts`, the adapter grouping,
the set of live connections (used for direct-to-socket delivery:
`io.to(socketId)` reaches the socket iff it is still connected), and the
queue of pending `setTimeout(..., 100)` cleanup callbacks scheduled by the
disconnect handler, each capturing the closed-over `roomId` and the
disconnected `socket.id`, in schedule order. -/
structure ServerState where
  rooms : List (RoomKey × RoomData)
  socketRoomMap : List (Conn × RoomKey)
  adapter : Adapter
  connected : List Conn
  timers : List (RoomKey × Conn)
deriving DecidableEq

def initialState : ServerState :=
  { rooms := [], socketRoomMap := [], adapter := [], connected := [], timers := [] }

/-- One server event handler step, translated arm by arm from
`io.on("connection", ...)` in `index.ts`.  Returns the new state and the
list of (recipient, message) deliveries, in emission order.  The transport
removes the socket from its adapter groups before the disconnect handler
runs; the handler's `setTimeout(..., 100)` body — count read, broadcasts,
and the conditional `rooms.delete` — is genuinely deferred, so the model
queues it as a pending cleanup which a later `timerFire` event executes.
Other events, such as a fresh join, can be interleaved in that window. -/
def serverStep (s : ServerState) : Event → ServerState × List (Conn × SMsg)
  | .connect c => ({ s with connected := s.connected ++ [c] }, [])
  | .joinRoom c r =>
      -- socket.join(roomId); socketRoomMap.set(socket.id, roomId)
      let adapter := adapterJoin s.adapter r c
      let srm := setA s.socketRoomMap c r
      -- const clients = Array.from(io.sockets.adapter.rooms.get(roomId) || [])
      let clients := adapterGet adapter r
      -- io.to(roomId).emit("user_count", clients.length)
      let countMsgs := clients.map (fun m => (m, SMsg.userCount clients.length))
      -- if (!rooms.has(roomId)) rooms.set(roomId, defaults)
      let rooms := match lookupA s.rooms r with
        | none => setA s.rooms r defaultRoom
        | some _ => s.rooms
      -- io.to(socket.id).emit("sync_state", rooms.get(roomId)!)
      let d := (lookupA rooms r).getD defaultRoom
      ({ s with adapter := adapter, socketRoomMap := srm, rooms := rooms },
        countMsgs ++ [(c, SMsg.syncState d)])
  | .requestUsers c r =>
      -- socket.emit("all_users", clients.filter(id => id !== socket.id))
      let others := (adapterGet s.adapter r).filter (fun m => m ≠ c)
      (s, [(c, SMsg.allUsers others)])
  | .sendingSignal _ target callerID sig =>
      -- io.to(payload.userToSignal).emit("user_joined", {signal, callerID});
      -- a disconnected target means an empty destination set: silently dropped
      (s, if target ∈ s.connected then [(target, SMsg.userJoined sig callerID)] else [])
  | .returningSignal c callerID sig =>
      -- io.to(payload.callerID).emit("receiving_returned_signal", {signal, id: socket.id})
      (s, if callerID ∈ s.connected then
            [(callerID, SMsg.receivingReturnedSignal sig c)] else [])
  | .codeChange c r code delta =>
      match lookupA s.rooms r with
      | none => (s, [])
      | some d =>
          -- rooms.get(roomId)!.code = code
          -- socket.to(roomId).emit("receive_code", { code, delta })
          ({ s with rooms := setA s.rooms r { d with code := code } },
            ((adapterGet s.adapter r).filter (fun m => m ≠ c)).map
              (fun m => (m, SMsg.receiveCode code delta)))
  | .languageChange c r lang =>
      match lookupA s.rooms r with
      | none => (s, [])
      | some d =>
          ({ s with rooms := setA s.rooms r { d with language := lang } },
            ((adapterGet s.adapter r).filter (fun m => m ≠ c)).map
              (fun m => (m, SMsg.receiveLanguage lang)))
  | .outputChange c r out =>
      match lookupA s.rooms r with
      | none => (s, [])
      | some d =>
          ({ s with rooms := setA s.rooms r { d with output := out } },
            ((adapterGet s.adapter r).filter (fun m => m ≠ c)).map
              (fun m => (m, SMsg.receiveOutput out)))
  | .leaveRoom _ =>
      -- no socket.on("leave_room") handler exists on the server
      (s, [])
  | .disconnect c =>
      -- the transport removes the socket from every group before the handler
      let adapter := adapterRemoveAll s.adapter c
      let connected := s.connected.filter (fun x => x ≠ c)
      match lookupA s.socketRoomMap c with
      | none => ({ s with adapter := adapter, connected := connected }, [])
      | some r =>
          -- socketRoomMap.delete(socket.id); setTimeout(..., 100) schedules
          -- the deferred count/broadcast/delete block for a later timerFire
          ({ s with adapter := adapter, connected := connected,
                    socketRoomMap := eraseKey s.socketRoomMap c,
                    timers := s.timers ++ [(r, c)] }, [])
  | .timerFire =>
      match s.timers with
      | [] => (s, [])
      | (r, c) :: rest =>
          -- const count = io.sockets.adapter.rooms.get(roomId)?.size || 0
          let g := adapterGet s.adapter r
          -- io.to(roomId).emit("user_count", count)
          let countMsgs := g.map (fun m => (m, SMsg.userCount g.length))
          -- socket.to(roomId).emit("user_left", socket.id)
          let leftMsgs := (g.filter (fun m => m ≠ c)).map (fun m => (m, SMsg.userLeft c))
          -- if (count === 0) rooms.delete(roomId)
          let rooms := if g.length = 0 then eraseKey s.rooms r else s.rooms
          ({ s with rooms := rooms, timers := rest }, countMsgs ++ leftMsgs)

/-- Event preconditions describing what a conforming client actually emits:
socket ids are fresh at connect, and a connection sends `join_room` at most
once per connection lifetime — the UI only offers Join while not in a room,
and its Leave button reloads the page, tearing the connection down, so a
re-join always happens on a fresh connection. -/
@[reducible] def pre (s : ServerState) : Event → Prop
  | .connect c => c ∉ s.connected
  | .joinRoom c _ => c ∈ s.connected ∧ lookupA s.socketRoomMap c = none
  | _ => True

/-- Server states reachable from the empty initial state under
client-conforming events. -/
inductive Reachable : ServerState → Prop
  | init : Reachable initialState
  | step {s : ServerState} (e : Event) : Reachable s → pre s e →
      Reachable (serverStep s e).1

/-- Inductive invariant: any adapter-group membership is mirrored by the
connection's `socketRoomMap` entry, which — being a map — pins every
connection to at most one room. -/
def memInv (s : ServerState) : Prop :=
  ∀ c r, c ∈ adapterGet s.adapter r → lookupA s.socketRoomMap c = some r

/-! ## Client embedding (`App.tsx`, the main variant)

Only the socket handlers and the state they touch are embedded; WebRTC peer
bookkeeping lives outside the replicated document state.  The Monaco editor
is an opaque collaborator: `editor` holds its buffer when mounted, and the
apply-edits operation is a parameter of the handlers.  `setTimeout` callbacks
are modelled as pending timer actions that fire in a later step. -/

/-- Callbacks the client schedules with `setTimeout`. -/
inductive ClientTimer where
  | resetRemoteFlag
deriving DecidableEq

/-- Client-side state: React state plus the `isRemoteUpdate` ref, the
editor buffer (when mounted) and pending timers. -/
structure ClientState where
  roomId : String
  joined : Bool
  language : String
  code : String
  output : List String
  userCount : Nat
  isRemoteUpdate : Bool
  editor : Option String
  timers : List ClientTimer
deriving DecidableEq

/-- `socket.on("sync_state", ...)`: set the suppression flag, replace the
buffer (when mounted) and the React state with the snapshot, and schedule a
timer-delayed reset of the flag (`setTimeout(..., 100)`). -/
def clientOnSyncState (st : RoomData) (cs : ClientState) : ClientState :=
  { cs with isRemoteUpdate := true
            editor := cs.editor.map (fun _ => st.code)
            code := st.code
            language := st.language
            output := st.output
            timers := cs.timers ++ [ClientTimer.resetRemoteFlag] }

/-- `socket.on("receive_code", ...)`: return early when no editor is
mounted.  With a delta, set the flag, apply the edits, sync the React state
and reset the flag synchronously.  Without a delta, set the flag, replace the
whole buffer and schedule a timer-delayed reset (`setTimeout(..., 50)`). -/
def clientOnReceiveCode (applyEdits : String → Delta → String)
    (code : String) (delta : Option Delta) (cs : ClientState) : ClientState :=
  match cs.editor with
  | none => cs
  | some buf =>
      match delta with
      | some d =>
          let buf' := applyEdits buf d
          { cs with isRemoteUpdate := false, editor := some buf', code := buf' }
      | none =>
          { cs with isRemoteUpdate := true, editor := some code, code := code
                    timers := cs.timers ++ [ClientTimer.resetRemoteFlag] }

/-- Fire the oldest pending timer, if any. -/
def clientFireTimer (cs : ClientState) : ClientState :=
  match cs.timers with
  | [] => cs
  | ClientTimer.resetRemoteFlag :: rest =>
      { cs with isRemoteUpdate := false, timers := rest }

/-- Dispatch of a server message at the client, one arm per registered
`socket.on`.  The voice-signalling messages only touch peer objects, which
are outside the replicated state modelled here. -/
def clientHandle (applyEdits : String → Delta → String) :
    SMsg → ClientState → ClientState
  | .syncState st => clientOnSyncState st
  | .receiveCode code delta => clientOnReceiveCode applyEdits code delta
  | .receiveLanguage l => fun cs => { cs with language := l }
  | .receiveOutput o => fun cs => { cs with output := o }
  | .userCount n => fun cs => { cs with userCount := n }
  | .allUsers _ => id
  | .userJoined _ _ => id
  | .receivingReturnedSignal _ _ => id
  | .userLeft _ => id

/-- A whole deployment: the server plus the modelled clients, keyed by their
connection identifier. -/
structure World where
  server : ServerState
  clients : List (Conn × ClientState)
deriving DecidableEq

/-- Apply a function to the state of one client, leaving the rest alone. -/
def updClient (c : Conn) (f : ClientState → ClientState)
    (cl : List (Conn × ClientState)) : List (Conn × ClientState) :=
  cl.map (fun p => if p.1 = c then (p.1, f p.2) else p)

/-- Deliver the server's emitted messages to the modelled clients, in
emission order; a recipient without a modelled client is skipped. -/
def deliver (applyEdits : String → Delta → String)
    (msgs : List (Conn × SMsg)) (cl : List (Conn × ClientState)) :
    List (Conn × ClientState) :=
  msgs.foldl (fun acc m => updClient m.1 (clientHandle applyEdits m.2) acc) cl

/-- The client's local output-clear (`{ cs with output := [] }`). -/
def setOutClient (cs : ClientState) : ClientState := { cs with output := [] }

/-- The Clear button: `setOutput([]); socket.emit("output_change",
{ roomId, output: [] })`, followed by the server's handler and the delivery
of its broadcast to the other members. -/
def clickClear (applyEdits : String → Delta → String) (c : Conn) (w : World) :
    World :=
  match lookupA w.clients c with
  | none => w
  | some cs =>
      let st := serverStep w.server (.outputChange c cs.roomId [])
      { server := st.1
        clients := deliver applyEdits st.2 (updClient c setOutClient w.clients) }

/-! ## Concrete states used by the witnesses -/

/-- A server with room "a" holding the default state and two members 0, 1. -/
def wsTwo : ServerState :=
  { rooms := [("a", defaultRoom)], socketRoomMap := [(0, "a"), (1, "a")],
    adapter := [("a", [0, 1])], connected := [0, 1], timers := [] }

/-- A server with room "a" holding the default state and one member 0. -/
def wsOne : ServerState :=
  { rooms := [("a", defaultRoom)], socketRoomMap := [(0, "a")],
    adapter := [("a", [0])], connected := [0], timers := [] }

/-- A server with two connected sockets and no rooms. -/
def wsBare : ServerState :=
  { rooms := [], socketRoomMap := [], adapter := [], connected := [0, 1], timers := [] }

/-- A room whose state has been edited away from the defaults. -/
def roomEdited : RoomData :=
  { code := "print(1)\n", language := "python", output := ["1"] }

/-- A server where room "a" holds edited state, its sole member is socket 0,
and socket 1 is connected but roomless. -/
def wsEdited : ServerState :=
  { rooms := [("a", roomEdited)], socketRoomMap := [(0, "a")],
    adapter := [("a", [0])], connected := [0, 1], timers := [] }

/-- A mounted client sitting in room "a". -/
def wcA : ClientState :=
  { roomId := "a", joined := true, language := "javascript", code := "x",
    output := ["Ready to execute..."], userCount := 2, isRemoteUpdate := false,
    editor := some "x", timers := [] }

/-- A two-member world over `wsTwo`. -/
def wwTwo : World :=
  { server := wsTwo, clients := [(0, wcA), (1, wcA)] }

/-! ## Association-list and adapter lemmas -/

lemma lookupA_setA_self {α β : Type} [DecidableEq α] (l : List (α × β)) (k : α) (v : β) :
    lookupA (setA l k v) k = some v := by
  induction l with
  | nil => simp [setA, lookupA]
  | cons p t ih =>
      obtain ⟨a, b⟩ := p
      by_cases h : a = k <;> simp [setA, lookupA, h, ih]

lemma lookupA_setA_ne {α β : Type} [DecidableEq α] (l : List (α × β)) (k k' : α) (v : β)
    (hne : k' ≠ k) : lookupA (setA l k v) k' = lookupA l k' := by
  induction l with
  | nil => simp [setA, lookupA, Ne.symm hne]
  | cons p t ih =>
      obtain ⟨a, b⟩ := p
      by_cases h : a = k
      · subst h
        simp [setA, lookupA, Ne.symm hne]
      · simp [setA, lookupA, h, ih]

lemma lookupA_setA {α β : Type} [DecidableEq α] (l : List (α × β)) (k k' : α) (v : β) :
    lookupA (setA l k v) k' = if k' = k then some v else lookupA l k' := by
  by_cases h : k' = k
  · subst h; simp [lookupA_setA_self]
  · simp [h, lookupA_setA_ne l k k' v h]

lemma lookupA_eraseKey_self {α β : Type} [DecidableEq α] (l : List (α × β)) (k : α) :
    lookupA (eraseKey l k) k = none := by
  induction l with
  | nil => rfl
  | cons p t ih =>
      obtain ⟨a, b⟩ := p
      by_cases h : a = k
      · simpa [eraseKey, List.filter_cons, h] using ih
      · simpa [eraseKey, List.filter_cons, lookupA, h] using ih

lemma lookupA_eraseKey_ne {α β : Type} [DecidableEq α] (l : List (α × β)) (k k' : α)
    (h : k' ≠ k) : lookupA (eraseKey l k) k' = lookupA l k' := by
  induction l with
  | nil => rfl
  | cons p t ih =>
      obtain ⟨a, b⟩ := p
      by_cases h1 : a = k
      · subst h1
        simpa [eraseKey, List.filter_cons, lookupA, Ne.symm h] using ih
      · by_cases h2 : a = k'
        · subst h2
          simp [eraseKey, List.filter_cons, lookupA, h1]
        · simpa [eraseKey, List.filter_cons, lookupA, h1, h2] using ih

lemma mem_filter_ne (l : List Conn) (c m : Conn) :
    m ∈ l.filter (fun x => x ≠ c) ↔ m ∈ l ∧ m ≠ c := by
  simp [List.mem_filter]

lemma adapterGet_setA (a : Adapter) (r r' : RoomKey) (g : List Conn) :
    adapterGet (setA a r g) r' = if r' = r then g else adapterGet a r' := by
  unfold adapterGet
  rw [lookupA_setA]
  by_cases h : r' = r <;> simp [h]

lemma mem_adapterJoin (a : Adapter) (r r' : RoomKey) (c m : Conn) :
    m ∈ adapterGet (adapterJoin a r c) r' ↔
      m ∈ adapterGet a r' ∨ (r' = r ∧ m = c) := by
  unfold adapterJoin
  by_cases hc : c ∈ adapterGet a r
  · simp only [hc, if_true]
    constructor
    · exact Or.inl
    · rintro (h | ⟨rfl, rfl⟩)
      · exact h
      · exact hc
  · simp only [hc, if_false, adapterGet_setA]
    by_cases h : r' = r
    · subst h
      simp [List.mem_append]
      try tauto
    · simp [h]

lemma adapterGet_removeAll (a : Adapter) (c : Conn) (r : RoomKey) :
    adapterGet (adapterRemoveAll a c) r = (adapterGet a r).filter (fun x => x ≠ c) := by
  induction a with
  | nil => rfl
  | cons p t ih =>
      obtain ⟨k, g⟩ := p
      by_cases h : k = r
      · simp [adapterRemoveAll, adapterGet, lookupA, h]
      · simpa [adapterRemoveAll, adapterGet, lookupA, h] using ih

lemma setA_setA {α β : Type} [DecidableEq α] (l : List (α × β)) (k : α) (v v' : β) :
    setA (setA l k v) k v' = setA l k v' := by
  induction l with
  | nil => simp [setA]
  | cons p t ih =>
      obtain ⟨a, b⟩ := p
      by_cases h : a = k <;> simp [setA, h, ih]

lemma lookupA_mapVal {α β : Type} [DecidableEq α] (g : α → β → β)
    (l : List (α × β)) (k : α) :
    lookupA (l.map (fun p => (p.1, g p.1 p.2))) k = (lookupA l k).map (g k) := by
  induction l with
  | nil => rfl
  | cons p t ih =>
      obtain ⟨a, b⟩ := p
      by_cases h : a = k <;> simp [lookupA, h, ih]

lemma mapVal_mapVal {α β : Type} (f g : α → β → β) (l : List (α × β)) :
    (l.map (fun p => (p.1, f p.1 p.2))).map (fun p => (p.1, g p.1 p.2)) =
      l.map (fun p => (p.1, g p.1 (f p.1 p.2))) := by
  rw [List.map_map]; rfl

lemma updClient_mapVal (c : Conn) (f : ClientState → ClientState)
    (cl : List (Conn × ClientState)) :
    updClient c f cl = cl.map (fun p => (p.1, if p.1 = c then f p.2 else p.2)) := by
  unfold updClient
  congr 1
  funext p
  by_cases h : p.1 = c <;> simp [h]

lemma map_pair_eta (cl : List (Conn × ClientState)) :
    cl.map (fun p => (p.1, p.2)) = cl := by
  induction cl with
  | nil => rfl
  | cons p t ih => simp [ih]

lemma deliver_receiveOutput (applyEdits : String → Delta → String)
    (ms : List Conn) (out : List String) (cl : List (Conn × ClientState)) :
    deliver applyEdits (ms.map (fun m => (m, SMsg.receiveOutput out))) cl =
      cl.map (fun p => (p.1, if p.1 ∈ ms then { p.2 with output := out } else p.2)) := by
  induction ms generalizing cl with
  | nil =>
      simp only [List.map_nil, deliver, List.foldl_nil, List.not_mem_nil, if_false]
      exact (map_pair_eta cl).symm
  | cons m ms ih =>
      simp only [List.map_cons, deliver, List.foldl_cons] at ih ⊢
      rw [ih, updClient_mapVal, List.map_map]
      congr 1
      funext p
      show (p.1, if p.1 ∈ ms then _ else _) =
        (p.1, if p.1 ∈ m :: ms then _ else _)
      by_cases h1 : p.1 = m <;> by_cases h2 : p.1 ∈ ms <;>
        simp [clientHandle, h1, h2, List.mem_cons]

/-! ## Claims -/

/-- Claim C1: for every edit event on an existing room, the store's content
for that room is updated to the accompanying full content (other fields and
other rooms untouched), and the pair of delta and full content is forwarded
verbatim to exactly the other current members of that room — not to the
sender, and to no member of any other room. -/
theorem C1_edit_update_and_forward (s : ServerState) (c : Conn) (r : RoomKey)
    (code : String) (delta : Option Delta) (d : RoomData)
    (h : lookupA s.rooms r = some d) :
    (serverStep s (.codeChange c r code delta)).1.rooms
        = setA s.rooms r { d with code := code } ∧
    lookupA (serverStep s (.codeChange c r code delta)).1.rooms r
        = some { d with code := code } ∧
    (∀ r', r' ≠ r → lookupA (serverStep s (.codeChange c r code delta)).1.rooms r'
        = lookupA s.rooms r') ∧
    (serverStep s (.codeChange c r code delta)).2
        = ((adapterGet s.adapter r).filter (fun m => m ≠ c)).map
            (fun m => (m, SMsg.receiveCode code delta)) ∧
    (∀ m, m ∈ adapterGet s.adapter r → m ≠ c →
        (m, SMsg.receiveCode code delta) ∈ (serverStep s (.codeChange c r code delta)).2) ∧
    (∀ m x, (m, x) ∈ (serverStep s (.codeChange c r code delta)).2 →
        m ∈ adapterGet s.adapter r ∧ m ≠ c ∧ x = SMsg.receiveCode code delta) := by
  refine ⟨by simp [serverStep, h], by simp [serverStep, h, lookupA_setA_self],
    fun r' hne => by simp [serverStep, h, lookupA_setA_ne _ _ _ _ hne],
    by simp [serverStep, h], fun m hm hc => ?_, fun m x hmx => ?_⟩
  · simp only [serverStep, h]
    exact List.mem_map.mpr ⟨m, (mem_filter_ne _ _ _).mpr ⟨hm, hc⟩, rfl⟩
  · simp only [serverStep, h] at hmx
    rcases List.mem_map.mp hmx with ⟨a, ha, heq⟩
    rcases (mem_filter_ne _ _ _).mp ha with ⟨ham, hac⟩
    obtain ⟨rfl, rfl⟩ := Prod.mk.injEq .. ▸ heq
    exact ⟨ham, hac, rfl⟩

/-- Claim C1 witness: a concrete two-member room where an edit by member 0
updates the stored content and is forwarded to member 1 alone. -/
theorem C1_witness :
    lookupA wsTwo.rooms "a" = some defaultRoom ∧
    (serverStep wsTwo (.codeChange 0 "a" "x" (some "d"))).2
        = [(1, SMsg.receiveCode "x" (some "d"))] :=
  ⟨by decide, by
    have h := C1_edit_update_and_forward wsTwo 0 "a" "x" (some "d")
      defaultRoom (by decide)
    rw [h.2.2.2.1]
    decide⟩

/-- Claim C5: a content, language or output update whose room key is not in
the store is a complete no-op — the server state is unchanged and nothing is
broadcast. -/
theorem C5_unknown_room_noop (s : ServerState) (c : Conn) (r : RoomKey)
    (code : String) (delta : Option Delta) (lang : String) (out : List String)
    (h : lookupA s.rooms r = none) :
    serverStep s (.codeChange c r code delta) = (s, []) ∧
    serverStep s (.languageChange c r lang) = (s, []) ∧
    serverStep s (.outputChange c r out) = (s, []) := by
  refine ⟨?_, ?_, ?_⟩ <;> simp [serverStep, h]

/-- Claim C5 witness: a content update on an unknown key of a concrete
server state leaves it untouched and emits nothing. -/
theorem C5_witness :
    lookupA wsOne.rooms "b" = none ∧
    serverStep wsOne (.codeChange 0 "b" "x" none) = (wsOne, []) :=
  ⟨by decide,
    (C5_unknown_room_noop wsOne 0 "b" "x" none "python" [] (by decide)).1⟩

/-- Claim C6: relaying an offer delivers the payload tagged with the caller
identifier to the target and only the target, and relaying an answer
delivers the payload tagged with the responder's own socket id to the target
and only the target; a disconnected or absent target yields no delivery and
no error, and the relay never changes server state. -/
theorem C6_targeted_relay (s : ServerState) (c target callerID : Conn) (sig : Sig) :
    ((serverStep s (.sendingSignal c target callerID sig)).1 = s) ∧
    (target ∈ s.connected → (serverStep s (.sendingSignal c target callerID sig)).2
        = [(target, SMsg.userJoined sig callerID)]) ∧
    (target ∉ s.connected → (serverStep s (.sendingSignal c target callerID sig)).2 = []) ∧
    (∀ m x, (m, x) ∈ (serverStep s (.sendingSignal c target callerID sig)).2 →
        m = target ∧ x = SMsg.userJoined sig callerID) ∧
    ((serverStep s (.returningSignal c callerID sig)).1 = s) ∧
    (callerID ∈ s.connected → (serverStep s (.returningSignal c callerID sig)).2
        = [(callerID, SMsg.receivingReturnedSignal sig c)]) ∧
    (callerID ∉ s.connected → (serverStep s (.returningSignal c callerID sig)).2 = []) ∧
    (∀ m x, (m, x) ∈ (serverStep s (.returningSignal c callerID sig)).2 →
        m = callerID ∧ x = SMsg.receivingReturnedSignal sig c) := by
  refine ⟨rfl, fun h => by simp [serverStep, h], fun h => by simp [serverStep, h],
    fun m x hmx => ?_, rfl, fun h => by simp [serverStep, h],
    fun h => by simp [serverStep, h], fun m x hmx => ?_⟩
  · simp only [serverStep] at hmx
    split at hmx <;> simp at hmx
    exact ⟨hmx.1, hmx.2⟩
  · simp only [serverStep] at hmx
    split at hmx <;> simp at hmx
    exact ⟨hmx.1, hmx.2⟩

/-- Claim C6 witness: with sockets 0 and 1 connected and 2 absent, an offer
to 1 reaches exactly 1, and an offer to the absent 2 is silently dropped. -/
theorem C6_witness :
    (1 : Conn) ∈ wsBare.connected ∧
    (serverStep wsBare (.sendingSignal 0 1 0 "offer")).2
        = [(1, SMsg.userJoined "offer" 0)] ∧
    (serverStep wsBare (.sendingSignal 0 2 0 "offer")).2 = [] :=
  ⟨by decide,
    (C6_targeted_relay wsBare 0 1 0 "offer").2.1 (by decide),
    (C6_targeted_relay wsBare 0 2 0 "offer").2.2.1 (by decide)⟩

/-- Claim C10: a client-emitted leave-room message changes no server state
and produces no broadcast, because no handler is registered for it; a
connection's membership entry is removed only by that connection's
transport-level disconnect, and a stored room is deleted only when a
deferred cleanup fires — pending cleanups being scheduled exclusively by
disconnects. -/
theorem C10_leave_room_ignored :
    (∀ (s : ServerState) (c : Conn), serverStep s (.leaveRoom c) = (s, [])) ∧
    (∀ (s : ServerState) (e : Event) (c : Conn) (r : RoomKey),
        lookupA s.socketRoomMap c = some r →
        lookupA (serverStep s e).1.socketRoomMap c = none →
        e = Event.disconnect c) ∧
    (∀ (s : ServerState) (e : Event) (r : RoomKey),
        (lookupA s.rooms r).isSome →
        (lookupA (serverStep s e).1.rooms r).isSome = false →
        e = Event.timerFire) ∧
    (∀ (s : ServerState) (e : Event) (t : RoomKey × Conn),
        t ∈ (serverStep s e).1.timers →
        t ∈ s.timers ∨ ∃ c, e = Event.disconnect c) := by
  refine ⟨fun s c => rfl, fun s e c r h1 h2 => ?_, fun s e r h1 h2 => ?_,
    fun s e t ht => ?_⟩
  · cases e with
    | disconnect c' =>
        by_cases hc : c' = c
        · exact hc ▸ rfl
        · exfalso
          rcases hl : lookupA s.socketRoomMap c' with _ | r' <;>
            simp only [serverStep, hl] at h2
          · exact absurd h2 (by simp [h1])
          · rw [lookupA_eraseKey_ne _ _ _ (fun hh => hc hh.symm)] at h2
            exact absurd h2 (by simp [h1])
    | joinRoom c' r' =>
        exfalso
        simp only [serverStep] at h2
        rw [lookupA_setA] at h2
        revert h2
        by_cases hcc : c = c' <;> simp [hcc, h1]
    | connect c' => exact absurd h2 (by simp [serverStep, h1])
    | requestUsers c' r' => exact absurd h2 (by simp [serverStep, h1])
    | sendingSignal c' t cid sig => exact absurd h2 (by simp [serverStep, h1])
    | returningSignal c' cid sig => exact absurd h2 (by simp [serverStep, h1])
    | leaveRoom c' => exact absurd h2 (by simp [serverStep, h1])
    | codeChange c' r' code delta =>
        exfalso
        rcases hl : lookupA s.rooms r' with _ | d <;>
          simp only [serverStep, hl] at h2 <;> exact absurd h2 (by simp [h1])
    | languageChange c' r' lang =>
        exfalso
        rcases hl : lookupA s.rooms r' with _ | d <;>
          simp only [serverStep, hl] at h2 <;> exact absurd h2 (by simp [h1])
    | outputChange c' r' out =>
        exfalso
        rcases hl : lookupA s.rooms r' with _ | d <;>
          simp only [serverStep, hl] at h2 <;> exact absurd h2 (by simp [h1])
    | timerFire =>
        exfalso
        rcases ht : s.timers with _ | ⟨⟨r₀, c₀⟩, rest⟩ <;>
          simp only [serverStep, ht] at h2 <;> exact absurd h2 (by simp [h1])
  · cases e with
    | timerFire => rfl
    | disconnect c =>
        exfalso
        rcases hl : lookupA s.socketRoomMap c with _ | r' <;>
          simp only [serverStep, hl] at h2 <;> exact absurd h2 (by simp [h1])
    | joinRoom c r' =>
        exfalso
        rcases hl : lookupA s.rooms r' with _ | d <;> simp only [serverStep, hl] at h2
        · rw [lookupA_setA] at h2
          revert h2
          by_cases hr : r = r' <;> simp [hr, h1]
        · exact absurd h2 (by simp [h1])
    | codeChange c r' code delta =>
        exfalso
        rcases hl : lookupA s.rooms r' with _ | d <;> simp only [serverStep, hl] at h2
        · exact absurd h2 (by simp [h1])
        · rw [lookupA_setA] at h2
          revert h2
          by_cases hr : r = r' <;> simp [hr, h1]
    | languageChange c r' lang =>
        exfalso
        rcases hl : lookupA s.rooms r' with _ | d <;> simp only [serverStep, hl] at h2
        · exact absurd h2 (by simp [h1])
        · rw [lookupA_setA] at h2
          revert h2
          by_cases hr : r = r' <;> simp [hr, h1]
    | outputChange c r' out =>
        exfalso
        rcases hl : lookupA s.rooms r' with _ | d <;> simp only [serverStep, hl] at h2
        · exact absurd h2 (by simp [h1])
        · rw [lookupA_setA] at h2
          revert h2
          by_cases hr : r = r' <;> simp [hr, h1]
    | connect c => exact absurd h2 (by simp [serverStep, h1])
    | requestUsers c r' => exact absurd h2 (by simp [serverStep, h1])
    | sendingSignal c t cid sig => exact absurd h2 (by simp [serverStep, h1])
    | returningSignal c cid sig => exact absurd h2 (by simp [serverStep, h1])
    | leaveRoom c => exact absurd h2 (by simp [serverStep, h1])
  · cases e with
    | disconnect c => exact Or.inr ⟨c, rfl⟩
    | timerFire =>
        rcases htm : s.timers with _ | ⟨⟨r₀, c₀⟩, rest⟩ <;>
          simp only [serverStep, htm] at ht
        · exact Or.inl (htm ▸ ht)
        · exact Or.inl (htm ▸ List.mem_cons_of_mem _ ht)
    | connect c => exact Or.inl ht
    | joinRoom c r' =>
        rcases hl : lookupA s.rooms r' with _ | d <;>
          simp only [serverStep, hl] at ht <;> exact Or.inl ht
    | requestUsers c r' => exact Or.inl ht
    | sendingSignal c t' cid sig => exact Or.inl ht
    | returningSignal c cid sig => exact Or.inl ht
    | leaveRoom c => exact Or.inl ht
    | codeChange c r' code delta =>
        rcases hl : lookupA s.rooms r' with _ | d <;>
          simp only [serverStep, hl] at ht <;> exact Or.inl ht
    | languageChange c r' lang =>
        rcases hl : lookupA s.rooms r' with _ | d <;>
          simp only [serverStep, hl] at ht <;> exact Or.inl ht
    | outputChange c r' out =>
        rcases hl : lookupA s.rooms r' with _ | d <;>
          simp only [serverStep, hl] at ht <;> exact Or.inl ht

/-- Claim C10 witness: a leave-room message on a concrete populated server
state is ignored outright; the concrete disconnect removes the membership
entry, and the deferred cleanup firing afterwards deletes the room. -/
theorem C10_witness :
    serverStep wsOne (.leaveRoom 0) = (wsOne, []) ∧
    (lookupA wsOne.socketRoomMap 0 = some "a" ∧
      lookupA (serverStep wsOne (.disconnect 0)).1.socketRoomMap 0 = none ∧
      Event.disconnect (0 : Conn) = Event.disconnect 0) ∧
    ((lookupA (serverStep wsOne (.disconnect 0)).1.rooms "a").isSome ∧
      (lookupA (serverStep (serverStep wsOne (.disconnect 0)).1
          Event.timerFire).1.rooms "a").isSome = false ∧
      Event.timerFire = Event.timerFire) :=
  ⟨C10_leave_room_ignored.1 wsOne 0,
    ⟨by decide, by decide,
      C10_leave_room_ignored.2.1 wsOne (.disconnect 0) 0 "a" (by decide) (by decide)⟩,
    ⟨by decide, by decide,
      C10_leave_room_ignored.2.2.1 (serverStep wsOne (.disconnect 0)).1
        Event.timerFire "a" (by decide) (by decide)⟩⟩

/-- Claim C2: whatever event the server handles — join, or an abrupt
disconnect — every member-count message it emits carries exactly the size of
the transport adapter's own group for some room the recipient belongs to, as
that group stands after the event; the count is read off the grouping
primitive, so it cannot drift from live membership. -/
theorem C2_user_count_equals_group_size (s : ServerState) (e : Event) (c : Conn) (n : Nat)
    (h : (c, SMsg.userCount n) ∈ (serverStep s e).2) :
    ∃ r, c ∈ adapterGet (serverStep s e).1.adapter r ∧
         n = (adapterGet (serverStep s e).1.adapter r).length := by
  cases e with
  | connect c' => simp [serverStep] at h
  | joinRoom c' r =>
      refine ⟨r, ?_⟩
      simp only [serverStep] at h ⊢
      rcases List.mem_append.mp h with h1 | h2
      · rcases List.mem_map.mp h1 with ⟨m, hm, heq⟩
        injection heq with ha hb
        injection hb with hb
        subst ha
        subst hb
        exact ⟨hm, rfl⟩
      · simp at h2
  | requestUsers c' r => simp [serverStep] at h
  | sendingSignal c' t cid sig =>
      simp only [serverStep] at h
      split at h <;> simp at h
  | returningSignal c' cid sig =>
      simp only [serverStep] at h
      split at h <;> simp at h
  | codeChange c' r code delta =>
      rcases hl : lookupA s.rooms r with _ | d <;> simp [serverStep, hl] at h
  | languageChange c' r lang =>
      rcases hl : lookupA s.rooms r with _ | d <;> simp [serverStep, hl] at h
  | outputChange c' r out =>
      rcases hl : lookupA s.rooms r with _ | d <;> simp [serverStep, hl] at h
  | leaveRoom c' => simp [serverStep] at h
  | disconnect c' =>
      rcases hl : lookupA s.socketRoomMap c' with _ | r <;>
        simp [serverStep, hl] at h
  | timerFire =>
      rcases htm : s.timers with _ | ⟨⟨r₀, c₀⟩, rest⟩
      · simp [serverStep, htm] at h
      · refine ⟨r₀, ?_⟩
        simp only [serverStep, htm] at h ⊢
        rcases List.mem_append.mp h with h1 | h2
        · rcases List.mem_map.mp h1 with ⟨m, hm, heq⟩
          injection heq with ha hb
          injection hb with hb
          subst ha
          subst hb
          exact ⟨hm, rfl⟩
        · rcases List.mem_map.mp h2 with ⟨m, hm, heq⟩
          injection heq with ha hb
          injection hb

/-- Claim C2 witness: after socket 1 disconnects from the two-member room of
`wsTwo`, the deferred cleanup's count broadcast equals the remaining group
size derived from the adapter. -/
theorem C2_witness :
    (0, SMsg.userCount 1)
        ∈ (serverStep (serverStep wsTwo (.disconnect 1)).1 Event.timerFire).2 ∧
    0 ∈ adapterGet
        (serverStep (serverStep wsTwo (.disconnect 1)).1 Event.timerFire).1.adapter "a" ∧
    1 = (adapterGet
        (serverStep (serverStep wsTwo (.disconnect 1)).1 Event.timerFire).1.adapter
        "a").length := by
  refine ⟨by decide, ?_⟩
  obtain ⟨r, hmem, hlen⟩ :=
    C2_user_count_equals_group_size (serverStep wsTwo (.disconnect 1)).1
      Event.timerFire 0 1 (by decide)
  have hr : r = "a" := by
    by_contra hne
    rw [show (serverStep (serverStep wsTwo (.disconnect 1)).1 Event.timerFire).1.adapter
        = [("a", [0])] from by decide] at hmem
    simp [adapterGet, lookupA, Ne.symm hne] at hmem
  subst hr
  exact ⟨hmem, hlen⟩

/-- Claim C3: handling a join delivers to the joining connection — and to it
alone — exactly one snapshot message, and its payload is the room's current
stored state (the pre-existing state when the room was known, the fresh
defaults otherwise); moreover the snapshot message is emitted by no other
event, making it the sole recovery mechanism. -/
theorem C3_join_sends_current_snapshot :
    (∀ (s : ServerState) (c : Conn) (r : RoomKey), ∃ d,
        lookupA (serverStep s (.joinRoom c r)).1.rooms r = some d ∧
        (∀ d₀, lookupA s.rooms r = some d₀ → d = d₀) ∧
        (lookupA s.rooms r = none → d = defaultRoom) ∧
        (c, SMsg.syncState d) ∈ (serverStep s (.joinRoom c r)).2 ∧
        (∀ c' d', (c', SMsg.syncState d') ∈ (serverStep s (.joinRoom c r)).2 →
            c' = c ∧ d' = d)) ∧
    (∀ (s : ServerState) (e : Event) (c' : Conn) (d' : RoomData),
        (c', SMsg.syncState d') ∈ (serverStep s e).2 →
        ∃ c r, e = Event.joinRoom c r ∧ c' = c) := by
  constructor
  · intro s c r
    rcases hl : lookupA s.rooms r with _ | d₀
    · refine ⟨defaultRoom, ?_, ?_, fun _ => rfl, ?_, ?_⟩
      · simp [serverStep, hl, lookupA_setA_self]
      · intro d₀ hd₀
        exact Option.noConfusion hd₀
      · simp [serverStep, hl, lookupA_setA_self]
      · intro c' d' hmem
        simp only [serverStep, hl] at hmem
        rcases List.mem_append.mp hmem with h1 | h2
        · rcases List.mem_map.mp h1 with ⟨m, _, heq⟩
          injection heq with _ hb
          injection hb
        · simp only [List.mem_singleton] at h2
          injection h2 with ha hb
          injection hb with hb
          exact ⟨ha, by simpa [lookupA_setA_self] using hb⟩
    · refine ⟨d₀, ?_, fun d₁ hd₁ => ?_, ?_, ?_, ?_⟩
      · simp [serverStep, hl]
      · injection hd₁
      · intro hnone
        exact Option.noConfusion hnone
      · simp [serverStep, hl]
      · intro c' d' hmem
        simp only [serverStep, hl] at hmem
        rcases List.mem_append.mp hmem with h1 | h2
        · rcases List.mem_map.mp h1 with ⟨m, _, heq⟩
          injection heq with _ hb
          injection hb
        · simp only [List.mem_singleton] at h2
          injection h2 with ha hb
          injection hb with hb
          exact ⟨ha, by simpa using hb⟩
  · intro s e c' d' hmem
    cases e with
    | joinRoom c r => exact ⟨c, r, rfl, by
        simp only [serverStep] at hmem
        rcases List.mem_append.mp hmem with h1 | h2
        · rcases List.mem_map.mp h1 with ⟨m, _, heq⟩
          injection heq with _ hb
          injection hb
        · simp only [List.mem_singleton] at h2
          exact congrArg Prod.fst h2⟩
    | connect c => simp [serverStep] at hmem
    | requestUsers c r => simp [serverStep] at hmem
    | sendingSignal c t cid sig =>
        simp only [serverStep] at hmem
        split at hmem <;> simp at hmem
    | returningSignal c cid sig =>
        simp only [serverStep] at hmem
        split at hmem <;> simp at hmem
    | codeChange c r code delta =>
        rcases hl : lookupA s.rooms r with _ | d <;> simp [serverStep, hl] at hmem
    | languageChange c r lang =>
        rcases hl : lookupA s.rooms r with _ | d <;> simp [serverStep, hl] at hmem
    | outputChange c r out =>
        rcases hl : lookupA s.rooms r with _ | d <;> simp [serverStep, hl] at hmem
    | leaveRoom c => simp [serverStep] at hmem
    | disconnect c =>
        rcases hl : lookupA s.socketRoomMap c with _ | r <;>
          simp [serverStep, hl] at hmem
    | timerFire =>
        rcases htm : s.timers with _ | ⟨⟨r₀, c₀⟩, rest⟩ <;>
          simp only [serverStep, htm] at hmem
        · simp at hmem
        · rcases List.mem_append.mp hmem with h1 | h2
          · rcases List.mem_map.mp h1 with ⟨m, _, heq⟩
            injection heq with _ hb
            injection hb
          · rcases List.mem_map.mp h2 with ⟨m, _, heq⟩
            injection heq with _ hb
            injection hb

/-- Claim C3 witness: socket 2 joining the existing room "a" of `wsTwo`
receives exactly the stored snapshot. -/
theorem C3_witness :
    lookupA (serverStep wsTwo (.joinRoom 2 "a")).1.rooms "a" = some defaultRoom ∧
    (2, SMsg.syncState defaultRoom) ∈ (serverStep wsTwo (.joinRoom 2 "a")).2 := by
  obtain ⟨d, hd1, hd2, _, hd4, _⟩ := C3_join_sends_current_snapshot.1 wsTwo 2 "a"
  have hdef : d = defaultRoom := hd2 defaultRoom (by decide)
  subst hdef
  exact ⟨hd1, hd4⟩

/-- Claim C4 fails on the code: room deletion sits inside the disconnect
handler's `setTimeout(..., 100)`, so when the sole member of a room
disconnects there is a window in which membership is already zero yet
`rooms` still holds the key.  Evaluating the model at the failing input:
in `wsEdited`, socket 0 — the only member of room "a", whose state has been
edited away from the defaults — disconnects; membership of "a" is zero and
the cleanup merely pending, the room entry still present; socket 1 then
joins "a" inside that window and is served the stale edited snapshot
instead of the defaults; when the deferred cleanup finally fires it reads
count 1 and the room is never deleted. -/
theorem C4_zero_membership_room_outlives_and_leaks_stale_state :
    adapterGet (serverStep wsEdited (.disconnect 0)).1.adapter "a" = [] ∧
    (serverStep wsEdited (.disconnect 0)).2 = [] ∧
    lookupA (serverStep wsEdited (.disconnect 0)).1.rooms "a" = some roomEdited ∧
    roomEdited ≠ defaultRoom ∧
    (1, SMsg.syncState roomEdited)
        ∈ (serverStep (serverStep wsEdited (.disconnect 0)).1 (.joinRoom 1 "a")).2 ∧
    lookupA (serverStep (serverStep (serverStep wsEdited (.disconnect 0)).1
        (.joinRoom 1 "a")).1 Event.timerFire).1.rooms "a" = some roomEdited := by
  decide

lemma memInv_initial : memInv initialState := by
  intro c r hmem
  simp [initialState, adapterGet, lookupA] at hmem

lemma memInv_step (s : ServerState) (e : Event) (hInv : memInv s) (hp : pre s e) :
    memInv (serverStep s e).1 := by
  cases e with
  | connect c₀ => exact fun c r hmem => hInv c r hmem
  | joinRoom c₀ r₀ =>
      obtain ⟨hconn, hnone⟩ := hp
      intro c r hmem
      simp only [serverStep] at hmem ⊢
      rw [lookupA_setA]
      rcases (mem_adapterJoin s.adapter r₀ r c₀ c).mp hmem with hold | ⟨rfl, rfl⟩
      · by_cases hc : c = c₀
        · subst hc
          exact absurd (hInv c r hold) (by simp [hnone])
        · simp only [hc, if_false]
          exact hInv c r hold
      · simp
  | requestUsers c₀ r₀ => exact fun c r hmem => hInv c r hmem
  | sendingSignal c₀ t cid sig => exact fun c r hmem => hInv c r hmem
  | returningSignal c₀ cid sig => exact fun c r hmem => hInv c r hmem
  | leaveRoom c₀ => exact fun c r hmem => hInv c r hmem
  | codeChange c₀ r₀ code delta =>
      rcases hl : lookupA s.rooms r₀ with _ | d <;>
        simp only [serverStep, hl] <;> exact fun c r hmem => hInv c r hmem
  | languageChange c₀ r₀ lang =>
      rcases hl : lookupA s.rooms r₀ with _ | d <;>
        simp only [serverStep, hl] <;> exact fun c r hmem => hInv c r hmem
  | outputChange c₀ r₀ out =>
      rcases hl : lookupA s.rooms r₀ with _ | d <;>
        simp only [serverStep, hl] <;> exact fun c r hmem => hInv c r hmem
  | disconnect c₀ =>
      intro c r hmem
      rcases hl : lookupA s.socketRoomMap c₀ with _ | r₀ <;>
        simp only [serverStep, hl] at hmem ⊢
      · rw [adapterGet_removeAll] at hmem
        rcases (mem_filter_ne _ _ _).mp hmem with ⟨hold, _⟩
        exact hInv c r hold
      · rw [adapterGet_removeAll] at hmem
        rcases (mem_filter_ne _ _ _).mp hmem with ⟨hold, hc⟩
        rw [lookupA_eraseKey_ne _ _ _ hc]
        exact hInv c r hold
  | timerFire =>
      rcases htm : s.timers with _ | ⟨⟨r₀, c₀⟩, rest⟩ <;>
        simp only [serverStep, htm] <;> exact fun c r hmem => hInv c r hmem

lemma reachable_memInv (s : ServerState) (h : Reachable s) : memInv s := by
  induction h with
  | init => exact memInv_initial
  | step e _ hp ih => exact memInv_step _ e ih hp

/-- Claim C8: in every state reachable under client-conforming behaviour —
the client joins at most once per connection, leaving only by tearing the
connection down — each connection belongs to at most one adapter room
group, the one recorded for it in `socketRoomMap`. -/
theorem C8_one_room_per_connection (s : ServerState) (h : Reachable s) :
    ∀ (c : Conn) (r₁ r₂ : RoomKey),
      c ∈ adapterGet s.adapter r₁ → c ∈ adapterGet s.adapter r₂ → r₁ = r₂ := by
  intro c r₁ r₂ h1 h2
  have i := reachable_memInv s h
  have e1 := i c r₁ h1
  have e2 := i c r₂ h2
  rw [e1] at e2
  injection e2

/-- Claim C8 witness: the reachable state where socket 0 connects and joins
room "a" has 0 in exactly that one group. -/
theorem C8_witness :
    Reachable (serverStep (serverStep initialState (.connect 0)).1 (.joinRoom 0 "a")).1 ∧
    0 ∈ adapterGet
        (serverStep (serverStep initialState (.connect 0)).1 (.joinRoom 0 "a")).1.adapter
        "a" ∧
    ("a" : RoomKey) = "a" := by
  have h0 : Reachable (serverStep initialState (.connect 0)).1 :=
    Reachable.step (.connect 0) Reachable.init (by decide)
  have h1 : Reachable (serverStep (serverStep initialState (.connect 0)).1
      (.joinRoom 0 "a")).1 :=
    Reachable.step (.joinRoom 0 "a") h0 (by exact ⟨by decide, by decide⟩)
  refine ⟨h1, by decide, ?_⟩
  exact C8_one_room_per_connection _ h1 0 "a" "a" (by decide) (by decide)

/-- Claim C7 counterexample: as stated the claim is false — after the client
handles a remote edit carrying no delta, the suppression flag is still set
when the handler returns, and a timer-delayed reset has been scheduled
(`setTimeout(() => isRemoteUpdate.current = false, 50)`), i.e. the flag is
left set across an asynchronous boundary. -/
theorem C7_counterexample :
    ¬ ((clientOnReceiveCode (fun b _ => b) "abc" none wcA).isRemoteUpdate = false ∧
       (clientOnReceiveCode (fun b _ => b) "abc" none wcA).timers = wcA.timers) := by
  decide

/-- Claim C7 (amended): in the delta branch of the remote-edit handler the
suppression flag is indeed cleared synchronously, within the handler, with
no timer scheduled; but in the no-delta fallback and in the snapshot-sync
handler the flag is still set when the handler returns and is cleared only
by a scheduled timer firing later. -/
theorem C7_scoped_flag_only_in_delta_branch (applyEdits : String → Delta → String)
    (cs : ClientState) (buf : String) (hed : cs.editor = some buf) :
    (∀ code d,
        (clientOnReceiveCode applyEdits code (some d) cs).isRemoteUpdate = false ∧
        (clientOnReceiveCode applyEdits code (some d) cs).timers = cs.timers ∧
        (clientOnReceiveCode applyEdits code (some d) cs).editor
            = some (applyEdits buf d)) ∧
    (∀ code,
        (clientOnReceiveCode applyEdits code none cs).isRemoteUpdate = true ∧
        (clientOnReceiveCode applyEdits code none cs).timers
            = cs.timers ++ [ClientTimer.resetRemoteFlag]) ∧
    (∀ st,
        (clientOnSyncState st cs).isRemoteUpdate = true ∧
        (clientOnSyncState st cs).timers
            = cs.timers ++ [ClientTimer.resetRemoteFlag]) ∧
    (∀ (cs' : ClientState) rest, cs'.timers = ClientTimer.resetRemoteFlag :: rest →
        (clientFireTimer cs').isRemoteUpdate = false ∧
        (clientFireTimer cs').timers = rest) := by
  refine ⟨fun code d => ?_, fun code => ?_, fun st => ?_, fun cs' rest h => ?_⟩
  · simp [clientOnReceiveCode, hed]
  · simp [clientOnReceiveCode, hed]
  · simp [clientOnSyncState]
  · simp [clientFireTimer, h]

/-- Claim C7 witness: on a concrete mounted client, a delta edit leaves the
flag cleared with no pending timer, while a no-delta edit leaves it set. -/
theorem C7_witness :
    wcA.editor = some "x" ∧
    (clientOnReceiveCode (fun b _ => b) "abc" (some "d") wcA).isRemoteUpdate = false ∧
    (clientOnReceiveCode (fun b _ => b) "abc" (some "d") wcA).timers = wcA.timers ∧
    (clientOnReceiveCode (fun b _ => b) "abc" none wcA).isRemoteUpdate = true :=
  ⟨by decide,
    ((C7_scoped_flag_only_in_delta_branch (fun b _ => b) wcA "x" (by decide)).1
      "abc" "d").1,
    ((C7_scoped_flag_only_in_delta_branch (fun b _ => b) wcA "x" (by decide)).1
      "abc" "d").2.1,
    ((C7_scoped_flag_only_in_delta_branch (fun b _ => b) wcA "x" (by decide)).2.1
      "abc").1⟩

lemma clickClear_eq (applyEdits : String → Delta → String) (c : Conn) (w : World)
    (cs : ClientState) (d : RoomData)
    (h1 : lookupA w.clients c = some cs)
    (h2 : lookupA w.server.rooms cs.roomId = some d) :
    clickClear applyEdits c w =
      { server := { w.server with
          rooms := setA w.server.rooms cs.roomId { d with output := [] } }
        clients := w.clients.map (fun p => (p.1,
          if p.1 = c ∨ p.1 ∈ (adapterGet w.server.adapter cs.roomId).filter
              (fun m => m ≠ c)
          then setOutClient p.2 else p.2)) } := by
  simp only [clickClear, h1, serverStep, h2]
  congr 1
  rw [deliver_receiveOutput, updClient_mapVal, List.map_map]
  congr 1
  funext p
  by_cases hpc : p.1 = c <;>
    by_cases hpr : p.1 ∈ (adapterGet w.server.adapter cs.roomId).filter (fun m => m ≠ c) <;>
      simp [Function.comp, hpc, hpr, setOutClient]

/-- Claim C9: clearing the output through the Clear button is idempotent —
doing it twice produces exactly the world of doing it once — and one clear
already leaves the empty output in the store's room entry, in the clicking
client's local state, and in the state of every other modelled member of the
room. -/
theorem C9_clear_output_idempotent (applyEdits : String → Delta → String)
    (w : World) (c : Conn) (cs : ClientState) (d : RoomData)
    (h1 : lookupA w.clients c = some cs)
    (h2 : lookupA w.server.rooms cs.roomId = some d) :
    clickClear applyEdits c (clickClear applyEdits c w) = clickClear applyEdits c w ∧
    lookupA (clickClear applyEdits c w).server.rooms cs.roomId
        = some { d with output := [] } ∧
    (∀ m csm, lookupA w.clients m = some csm →
        (m = c ∨ m ∈ adapterGet w.server.adapter cs.roomId) →
        ∃ cs', lookupA (clickClear applyEdits c w).clients m = some cs' ∧
          cs'.output = []) := by
  have hw1 := clickClear_eq applyEdits c w cs d h1 h2
  have h1' : lookupA (clickClear applyEdits c w).clients c = some (setOutClient cs) := by
    rw [hw1]
    rw [lookupA_mapVal (fun k v =>
      if k = c ∨ k ∈ (adapterGet w.server.adapter cs.roomId).filter (fun m => m ≠ c)
      then setOutClient v else v) w.clients c]
    simp [h1]
  have h2' : lookupA (clickClear applyEdits c w).server.rooms (setOutClient cs).roomId
      = some { d with output := [] } := by
    rw [hw1]
    exact lookupA_setA_self _ _ _
  have hw2 := clickClear_eq applyEdits c (clickClear applyEdits c w)
    (setOutClient cs) { d with output := [] } h1' h2'
  refine ⟨?_, ?_, ?_⟩
  · rw [hw2, hw1]
    congr 1
    · simp [setA_setA, setOutClient]
    · rw [List.map_map]
      congr 1
      funext p
      by_cases hpc : p.1 = c <;>
        by_cases hpg : p.1 ∈ adapterGet w.server.adapter cs.roomId <;>
          simp [Function.comp, List.mem_filter, hpc, hpg, setOutClient]
  · rw [hw1]
    exact lookupA_setA_self _ _ _
  · intro m csm hm hmem
    rw [hw1]
    rw [lookupA_mapVal (fun k v =>
      if k = c ∨ k ∈ (adapterGet w.server.adapter cs.roomId).filter (fun m => m ≠ c)
      then setOutClient v else v) w.clients m]
    rw [hm]
    have hcond : m = c ∨ m ∈ (adapterGet w.server.adapter cs.roomId).filter
        (fun x => x ≠ c) := by
      rcases hmem with hc | hg
      · exact Or.inl hc
      · by_cases hc : m = c
        · exact Or.inl hc
        · exact Or.inr ((mem_filter_ne _ _ _).mpr ⟨hg, hc⟩)
    refine ⟨setOutClient csm, ?_, rfl⟩
    rcases hcond with hc | hg
    · simp [hc]
    · rcases (mem_filter_ne _ _ _).mp hg with ⟨hg1, hg2⟩
      simp [hg1, hg2]

/-- Claim C9 witness: clearing twice in the concrete two-member world
`wwTwo` equals clearing once. -/
theorem C9_witness :
    lookupA wwTwo.clients 0 = some wcA ∧
    lookupA wwTwo.server.rooms wcA.roomId = some defaultRoom ∧
    clickClear (fun b _ => b) 0 (clickClear (fun b _ => b) 0 wwTwo)
        = clickClear (fun b _ => b) 0 wwTwo :=
  ⟨by decide, by decide,
    (C9_clear_output_idempotent (fun b _ => b) wwTwo 0 wcA defaultRoom
      (by decide) (by decide)).1⟩

end SynCode
